import Mathlib

/-!
The pikpakcli `download` command: a shallow embedding of `cmd/download/download.go`.

The remote service, the local filesystem and the logger are external
collaborators of the command.  They are embedded as explicit values:

* the remote service is a record of functions (`PikPak`), each returning the
  Go pair `(value, err)`;
* the local filesystem is a predicate `FS` telling which paths exist, and the
  outcome of every fallible local call made for one item is an `Outcome`;
* channel sends, log lines and calls to collaborators are recorded as `Event`s.
-/

namespace Pikpak

/-! ## `path/filepath` (Go standard library, Unix separator) -/

namespace filepath

/-- Split a path at every separator, keeping empty elements. -/
def splitSep : List Char → List (List Char)
  | [] => [[]]
  | c :: cs =>
    if c = '/' then [] :: splitSep cs
    else
      match splitSep cs with
      | [] => [[c]]
      | h :: t => (c :: h) :: t

/-- One element of the path is processed by `Clean`; `out` holds the elements
written so far, last one first.  An empty element and `.` are dropped, `..`
removes the last written element when that is a real name, is kept at the
start of a path that is not rooted, and is dropped at the root. -/
def cleanElem (rooted : Bool) (out : List (List Char)) (e : List Char) : List (List Char) :=
  if e = [] then out
  else if e = ['.'] then out
  else if e = ['.', '.'] then
    match out with
    | [] => if rooted then [] else [e]
    | top :: below => if top = ['.', '.'] then e :: out else below
  else e :: out

/-- Go `filepath.Clean` on Unix, element by element: the shortest path
equivalent to `path` by the rules of its documentation (one separator between
elements, no `.` element, no inner `..` element, no `..` at the root); the
empty result is `.`. -/
def Clean (path : String) : String :=
  if path = "" then "."
  else
    let rooted : Bool := path.data.head? = some '/'
    let out := ((splitSep path.data).foldl (cleanElem rooted) []).reverse
    let body := List.intercalate ['/'] out
    if rooted then String.mk ('/' :: body)
    else if body = [] then "."
    else String.mk body

/-- Go `filepath.Join`: the elements from the first non-empty one on, joined
by the separator and cleaned; the empty string when every element is empty. -/
def Join : List String → String
  | [] => ""
  | e :: rest =>
    if e = "" then Join rest
    else Clean (String.mk (List.intercalate ['/'] ((e :: rest).map String.data)))

/-- Go `filepath.Base` on Unix: the last element of the path, after trailing
separators are removed; `.` for the empty path and the separator for a path
of separators only. -/
def Base (path : String) : String :=
  if path = "" then "."
  else
    let stripped := (path.data.reverse.dropWhile (fun c => c = '/'))
    let last := (stripped.takeWhile (fun c => c ≠ '/')).reverse
    if last = [] then "/" else String.mk last

end filepath

/-! ## Data model -/

/-- Go `error`: `none` is `nil`. -/
abbrev error := Option String

/-- Modelled from the spec: `pikpak.FileStat` (the RemoteEntry of a listing:
identifier, name, kind, size); the command reads `Kind`, `ID` and `Name`. -/
structure FileStat where
  Kind : String
  ID : String
  Name : String
  Size : Nat
deriving DecidableEq, Repr

/-- Modelled from the spec: `pikpak.File` (the DownloadableFile: a remote entry
with a transfer handle); the command reads `Name` and calls `Download`. -/
structure File where
  ID : String
  Name : String
  Size : Nat
deriving DecidableEq, Repr

structure warpFile where
  f : File
  output : String
deriving DecidableEq, Repr

structure warpStat where
  s : FileStat
  output : String
deriving DecidableEq, Repr

/-- Modelled from the spec: the remote service `pikpak.PikPak` (RemoteCatalog),
one function per call the command makes, each returning the Go pair of a
value and an error. -/
structure PikPak where
  Login : error
  GetPathFolderId : String → String × error
  GetFolderFileStatList : String → List FileStat × error
  GetFileStat : String → String → FileStat × error
  GetFile : String → File × error

/-! ## `recursive`: the tree collector -/

/-- The function `recursive` of download.go.  `fuel` bounds the depth of the
Go call stack; `none` means the bound was reached.  The slice
`*collectWarpFile` is threaded through as the accumulator. -/
def recursive (p : PikPak) : Nat → List warpStat → String → String → Option (List warpStat)
  | 0, _, _, _ => none
  | fuel + 1, collectWarpFile, parentId, parentPath =>
    match p.GetFolderFileStatList parentId with
    | (_, some _) => some collectWarpFile
    | (statList, none) =>
      statList.foldlM (fun acc r =>
        if r.Kind = "drive#folder" then
          recursive p fuel acc r.ID (filepath.Join [parentPath, r.Name])
        else
          some (acc ++ [{ s := r, output := parentPath }])) collectWarpFile

/-- The contents of a remote folder: its entries in listing order.  A folder
entry carries its own contents and whether the listing call on it fails. -/
inductive Remote where
  | nil : Remote
  | file (s : FileStat) (rest : Remote) : Remote
  | folder (s : FileStat) (fails : Bool) (children : Remote) (rest : Remote) : Remote

namespace Remote

/-- The entries a listing call on the folder returns. -/
def entries : Remote → List FileStat
  | nil => []
  | file s rest => s :: entries rest
  | folder s _ _ rest => s :: entries rest

/-- Number of nested listing calls needed below this folder. -/
def depth : Remote → Nat
  | nil => 0
  | file _ rest => depth rest
  | folder _ fails children rest =>
    max (if fails then 1 else depth children + 1) (depth rest)

/-- No listing call fails anywhere in the tree. -/
def allSucceed : Remote → Bool
  | nil => true
  | file _ rest => allSucceed rest
  | folder _ fails children rest => !fails && allSucceed children && allSucceed rest

/-- Every file transitively contained in the folder, in depth-first pre-order. -/
def allFiles : Remote → List FileStat
  | nil => []
  | file s rest => s :: allFiles rest
  | folder _ _ children rest => allFiles children ++ allFiles rest

/-- The files reachable through folders whose listing succeeds, in depth-first
pre-order, each with the names of the folders from the root down to the folder
that contains it. -/
def reachable : Remote → List (List String × FileStat)
  | nil => []
  | file s rest => ([], s) :: reachable rest
  | folder s fails children rest =>
    (if fails then []
     else (reachable children).map (fun x => (s.Name :: x.1, x.2))) ++ reachable rest

/-- The service `p` serves this tree: entries are files or folders by their
`Kind`, a folder whose listing fails returns an error, and any other folder
lists exactly its children. -/
def Serves (p : PikPak) : Remote → Prop
  | nil => True
  | file s rest => s.Kind ≠ "drive#folder" ∧ Serves p rest
  | folder s fails children rest =>
    s.Kind = "drive#folder" ∧
    (if fails then (p.GetFolderFileStatList s.ID).2 ≠ none
     else p.GetFolderFileStatList s.ID = (entries children, none) ∧ Serves p children) ∧
    Serves p rest

end Remote

/-- The destination directory of a file: the local root path-joined, one
folder name at a time, with the names of the folders above the file. -/
def destination (d : String) (names : List String) : String :=
  names.foldl (fun dir n => filepath.Join [dir, n]) d

/-- The items the collector is specified to produce for a tree under the
local root `d`. -/
def collected (t : Remote) (d : String) : List warpStat :=
  t.reachable.map (fun x => { s := x.2, output := destination d x.1 })


/-! ## The local filesystem and the trace -/

/-- The local filesystem: which paths exist. -/
abbrev FS := String → Bool

/-- What the environment answers to the fallible local calls the worker makes
for one item: whether each call reports an error, and whether a failed
transfer leaves a file at the final path. -/
structure Outcome where
  existErr : Bool
  flagErr : Bool
  touchErr : Bool
  downloadErr : Bool
  leavesFile : Bool
  removeErr : Bool
deriving DecidableEq, Repr

/-- Every call made for the item succeeds. -/
def Outcome.allOk : Outcome :=
  { existErr := false, flagErr := false, touchErr := false,
    downloadErr := false, leavesFile := false, removeErr := false }

inductive Level where
  | Error
  | Warn
  | Info
deriving DecidableEq, Repr

/-- What a goroutine does that others can observe: a logrus line, a call to
`utils.TouchFile`, to `File.Download`, to `os.Remove`, a value sent on the
channel to the download workers, a completion signal `struct{}{}`. -/
inductive Event where
  | log (level : Level) (msg : String)
  | touch (flag : String)
  | transfer (f : File) (path : String)
  | remove (flag : String)
  | emit (w : warpFile)
  | signal
deriving DecidableEq, Repr

namespace Event

def isSignal : Event → Bool
  | signal => true
  | _ => false

def isTouch : Event → Bool
  | touch _ => true
  | _ => false

def isTransfer : Event → Bool
  | transfer _ _ => true
  | _ => false

end Event

/-- Number of completion signals in a trace. -/
def signals (trace : List Event) : Nat := (trace.filter Event.isSignal).length

/-- The values sent to the download workers, in order. -/
def emitted : List Event → List warpFile
  | [] => []
  | Event.emit w :: rest => w :: emitted rest
  | _ :: rest => emitted rest

namespace utils

/-- Modelled from the spec: `utils.Exists` (LocalStore `Exists(path) -> (bool,
error)`), whether the path exists, or an error when the check itself fails. -/
def Exists (fs : FS) (fails : Bool) (path : String) : Bool × error :=
  if fails then (false, some "access failed") else (fs path, none)

/-- Modelled from the spec: `utils.TouchFile` (LocalStore `CreateMarker`),
the path exists afterwards unless the call fails. -/
def TouchFile (fs : FS) (fails : Bool) (path : String) : FS × error :=
  if fails then (fs, some "create failed")
  else (fun q => if q = path then true else fs q, none)

/-- Modelled from the spec: `utils.CreateDirIfNotExist` (LocalStore
`EnsureDir`), the directory exists afterwards unless the call fails. -/
def CreateDirIfNotExist (fs : FS) (fails : Bool) (path : String) : FS × error :=
  if fails then (fs, some "mkdir failed")
  else (fun q => if q = path then true else fs q, none)

end utils

namespace os

/-- Go `os.Remove`: fails on a path that does not exist or when the
environment refuses; the path does not exist afterwards otherwise. -/
def Remove (fs : FS) (fails : Bool) (path : String) : FS × error :=
  if fails || !fs path then (fs, some "remove failed")
  else (fun q => if q = path then false else fs q, none)

end os

/-- Modelled from the spec: `pikpak.File.Download` (`Transfer(localPath)`,
streams the full content, overwrite semantics).  On success the path exists;
on failure the path exists if it did before or if the failed transfer left a
file behind. -/
def File.Download (_f : File) (fs : FS) (fails leavesFile : Bool) (path : String) : FS × error :=
  if fails then (fun q => if q = path then (leavesFile || fs q) else fs q, some "transfer failed")
  else (fun q => if q = path then true else fs q, none)

/-! ## `download`: the download worker -/

/-- The final local path of an item, line 214 of download.go. -/
def finalPath (warp : warpFile) : String := filepath.Join [warp.output, warp.f.Name]

/-- The marker path of an item, line 221 of download.go. -/
def flagPath (warp : warpFile) : String := finalPath warp ++ ".pikpakclidownload"

/-- One iteration of the loop of `download`, for the item `warp` received from
`inCh`: the filesystem afterwards and the events of the iteration. -/
def downloadItem (o : Outcome) (warp : warpFile) (fs : FS) : FS × List Event :=
  let path := filepath.Join [warp.output, warp.f.Name]
  match utils.Exists fs o.existErr path with
  | (_, some _) => (fs, [.log .Error "Access", .signal])
  | (exist, none) =>
    let flag := path ++ ".pikpakclidownload"
    match utils.Exists fs o.flagErr flag with
    | (_, some _) => (fs, [.log .Error "Access", .signal])
    | (hasFlag, none) =>
      if exist && !hasFlag then
        (fs, [.log .Info "Skip downloaded file", .signal])
      else
        match utils.TouchFile fs o.touchErr flag with
        | (fs1, some _) => (fs1, [.touch flag, .log .Error "Create flag file", .signal])
        | (fs1, none) =>
          match warp.f.Download fs1 o.downloadErr o.leavesFile path with
          | (fs2, some _) =>
            (fs2, [.touch flag, .transfer warp.f path, .log .Error "Download", .signal])
          | (fs2, none) =>
            match os.Remove fs2 o.removeErr flag with
            | (fs3, some _) =>
              (fs3, [.touch flag, .transfer warp.f path, .log .Info "Download",
                     .remove flag, .log .Warn "Remove flag file", .signal])
            | (fs3, none) =>
              (fs3, [.touch flag, .transfer warp.f path, .log .Info "Download",
                     .remove flag, .signal])

/-- The function `download` of download.go: the worker loop over the items it
receives from `inCh` until the channel is closed, each with the outcome of
its local calls. -/
def download : List (warpFile × Outcome) → FS → FS × List Event
  | [], fs => (fs, [])
  | (warp, o) :: rest, fs =>
    let step := downloadItem o warp fs
    let tail := download rest step.1
    (tail.1, step.2 ++ tail.2)

/-- The item took the skip branch: its events are the skip log line and the
completion signal. -/
def skipTrace : List Event := [.log .Info "Skip downloaded file", .signal]

/-! ## The orchestrators -/

/-- The package-level flag variables `count`, `folder`, `parentId`, `output`. -/
structure Flags where
  count : Int
  folder : String
  parentId : String
  output : String
deriving DecidableEq, Repr

/-- The default flag values registered in `init`. -/
def initFlags : Flags := { count := 1, folder := "/", parentId := "", output := "" }

/-- The local environment of a run: the filesystem at the start, which
directory creations fail, and the outcome of the local calls for the n-th
item handed to the download workers. -/
structure Env where
  fs : FS
  mkdirErr : String → Bool
  outcome : Nat → Outcome

/-- How a Go function call ends: it returns its error value, or it blocks
forever on a channel operation. -/
inductive Ret where
  | returned (err : error)
  | blocked
deriving DecidableEq, Repr

/-- Pair the items with the outcomes of their local calls, counting from `n`. -/
def withOutcomes (outcome : Nat → Outcome) : Nat → List warpFile → List (warpFile × Outcome)
  | _, [] => []
  | n, w :: ws => (w, outcome n) :: withOutcomes outcome (n + 1) ws

/-- The `count` goroutines running `download` on one shared channel.  Every
item is received by exactly one of them; the items are run in channel order.
With no worker nothing is received. -/
def downloadPool (count : Int) (items : List (warpFile × Outcome)) (fs : FS) : FS × List Event :=
  if count ≤ 0 then (fs, []) else download items fs

/-- The loop of `downloadFile` over `args`, lines 183 to 199: a path whose
stat or handle resolution fails is logged and skipped by `continue`, any
other is sent on `sendCh`. -/
def resolveArgs (p : PikPak) (parentId output : String) : List String → List Event
  | [] => []
  | path :: rest =>
    match p.GetFileStat parentId path with
    | (_, some _) => .log .Error "get parent id failed:" :: resolveArgs p parentId output rest
    | (stat, none) =>
      match p.GetFile stat.ID with
      | (_, some _) => .log .Error "get file failed" :: resolveArgs p parentId output rest
      | (file, none) => .emit { f := file, output := output } :: resolveArgs p parentId output rest

/-- The function `downloadFile` of download.go: how the call ends, the trace
of the main goroutine and the trace of the download workers.  The call
returns nil once `len(args)` completion signals were received on
`receiveCh`. -/
def downloadFile (p : PikPak) (g : Flags) (env : Env) (args : List String) :
    Ret × List Event × List Event :=
  match (if g.parentId = "" then p.GetPathFolderId g.folder else (g.parentId, none)) with
  | (_, some _) => (.returned (some "error"), [.log .Error "get folder failed:"], [])
  | (parentId, none) =>
    match utils.CreateDirIfNotExist env.fs (env.mkdirErr g.output) g.output with
    | (_, some _) =>
      (.returned (some "error"), [.log .Error "Create output directory failed:"], [])
    | (fs1, none) =>
      let main := resolveArgs p parentId g.output args
      let workers := (downloadPool g.count (withOutcomes env.outcome 0 (emitted main)) fs1).2
      if signals workers < args.length then (.blocked, main, workers)
      else (.returned none, main, workers)

/-- The loop of one metadata-resolver goroutine of `downloadFolder`, lines 98
to 112, over the stats it receives from `statCh`. -/
def resolver (p : PikPak) : List warpStat → List Event
  | [] => []
  | stat :: rest =>
    match p.GetFile stat.s.ID with
    | (file, some _) =>
      [.log .Error "Get File Failed:", .emit { f := file, output := stat.output }, .signal]
        ++ resolver p rest
    | (file, none) =>
      [.emit { f := file, output := stat.output }, .signal] ++ resolver p rest

/-- The loop of `downloadFolder` that creates the output directories and
feeds `statCh`, lines 120 to 127: the filesystem afterwards, the stats sent,
and the error of the first directory creation that fails. -/
def createDirs (mkdirErr : String → Bool) : List warpStat → FS → FS × List warpStat × error
  | [], fs => (fs, [], none)
  | stat :: rest, fs =>
    match utils.CreateDirIfNotExist fs (mkdirErr stat.output) stat.output with
    | (fs1, some e) => (fs1, [], some e)
    | (fs1, none) =>
      let tail := createDirs mkdirErr rest fs1
      (tail.1, stat :: tail.2.1, tail.2.2)

/-- The function `downloadFolder` of download.go: how the call ends, the
trace of the resolver goroutines and the trace of the download workers;
`none` when `recursive` exceeds `fuel`.  The call returns nil once
`len(collectStat)` signals were received on `statDone` and then on
`fileDone`. -/
def downloadFolder (p : PikPak) (g : Flags) (env : Env) (fuel : Nat) :
    Option (Ret × List Event × List Event) :=
  let base := filepath.Base g.folder
  match (if g.parentId = "" then p.GetPathFolderId g.folder else (g.parentId, none)) with
  | (_, some _) => some (.returned (some "error"), [], [])
  | (parentId, none) =>
    match recursive p fuel [] parentId (filepath.Join [g.output, base]) with
    | none => none
    | some collectStat =>
      match createDirs env.mkdirErr collectStat env.fs with
      | (_, _, some _) => some (.returned (some "error"), [], [])
      | (fs1, statCh, none) =>
        let resolvers := resolver p statCh
        let workers := (downloadPool g.count (withOutcomes env.outcome 0 (emitted resolvers)) fs1).2
        if signals resolvers < collectStat.length then some (.blocked, resolvers, workers)
        else if signals workers < collectStat.length then some (.blocked, resolvers, workers)
        else some (.returned none, resolvers, workers)

/-- How the process ends: `os.Exit` with a code, the command function
returning without calling it, or blocking forever. -/
inductive Status where
  | exit (code : Nat)
  | finished
  | blocked
deriving DecidableEq, Repr

/-- The `Run` function of `DownloadCmd`; `none` when `recursive` exceeds
`fuel`. -/
def Run (p : PikPak) (g : Flags) (env : Env) (fuel : Nat) (args : List String) : Option Status :=
  match p.Login with
  | some _ => some (.exit 1)
  | none =>
    if args.length > 0 then
      match (downloadFile p g env args).1 with
      | .returned (some _) => some (.exit 2)
      | .returned none => some .finished
      | .blocked => some .blocked
    else
      match downloadFolder p g env fuel with
      | none => none
      | some (.returned (some _), _) => some (.exit 2)
      | some (.returned none, _) => some .finished
      | some (.blocked, _) => some .blocked

/-- The trace of a run in which every item takes the skip branch. -/
def allSkipped : List warpFile → List Event
  | [] => []
  | _ :: rest => skipTrace ++ allSkipped rest

/-- The item is complete on the filesystem: its final path exists and its
marker does not. -/
def Complete (fs : FS) (warp : warpFile) : Prop :=
  fs (finalPath warp) = true ∧ fs (flagPath warp) = false

/-- The filesystem with no path. -/
def emptyFS : FS := fun _ => false

/-- Two files of one folder, the second named like the marker of the first. -/
def collidingItems : List warpFile :=
  [{ f := { ID := "id1", Name := "x", Size := 1 }, output := "out" },
   { f := { ID := "id2", Name := "x.pikpakclidownload", Size := 1 }, output := "out" }]

/-- A run of the worker over the items in which every local call succeeds. -/
def cleanRun (items : List warpFile) : List (warpFile × Outcome) :=
  items.map (fun w => (w, Outcome.allOk))

/-! ## The scenario of the specification -/

def file1 : FileStat := { Kind := "drive#file", ID := "id-file1", Name := "file1", Size := 10 }

def file2 : FileStat := { Kind := "drive#file", ID := "id-file2", Name := "file2", Size := 5 }

def file3 : FileStat := { Kind := "drive#file", ID := "id-file3", Name := "file3", Size := 7 }

def folderA : FileStat := { Kind := "drive#folder", ID := "id-a", Name := "a", Size := 0 }

def folderB : FileStat := { Kind := "drive#folder", ID := "id-b", Name := "b", Size := 0 }

/-- The remote root holds folder `a` (holding `file1`) and `file2`. -/
def scenarioTree : Remote :=
  .folder folderA false (.file file1 .nil) (.file file2 .nil)

/-- The scenario tree with one more folder `b`, listed first, holding `file3`;
the listing call on `b` fails. -/
def brokenTree : Remote :=
  .folder folderB true (.file file3 .nil) scenarioTree

/-- A service for the two trees: `id-root` lists the scenario tree, `id-root2`
the tree with folder `b`; the path `a/file1` resolves and no other does; the
handles of `file1` and `file2` resolve and no other does. -/
def scenarioService : PikPak :=
  { Login := none
    GetPathFolderId := fun _ => ("id-root", none)
    GetFolderFileStatList := fun id =>
      if id = "id-root" then ([folderA, file2], none)
      else if id = "id-root2" then ([folderB, folderA, file2], none)
      else if id = "id-a" then ([file1], none)
      else ([], some "listing failed")
    GetFileStat := fun _ path =>
      if path = "a/file1" then (file1, none)
      else ({ Kind := "", ID := "", Name := "", Size := 0 }, some "not found")
    GetFile := fun id =>
      if id = "id-file1" then ({ ID := "id-file1", Name := "file1", Size := 10 }, none)
      else if id = "id-file2" then ({ ID := "id-file2", Name := "file2", Size := 5 }, none)
      else ({ ID := "", Name := "", Size := 0 }, some "not found") }

/-- An empty local filesystem on which every local call succeeds. -/
def scenarioEnv : Env :=
  { fs := emptyFS, mkdirErr := fun _ => false, outcome := fun _ => Outcome.allOk }

/-- The flags of the scenario: one worker, the remote root, output root `out`. -/
def scenarioFlags : Flags := { count := 1, folder := "/", parentId := "", output := "out" }

/-- The two files of the scenario, resolved, with their destinations. -/
def scenarioItems : List warpFile :=
  [{ f := { ID := "id-file1", Name := "file1", Size := 10 }, output := "out/a" },
   { f := { ID := "id-file2", Name := "file2", Size := 5 }, output := "out" }]

/-! ## Theorems: the tree collector -/

theorem destination_cons (d n : String) (ns : List String) :
    destination d (n :: ns) = destination (filepath.Join [d, n]) ns := rfl

theorem collected_file (s : FileStat) (rest : Remote) (d : String) :
    collected (Remote.file s rest) d = { s := s, output := d } :: collected rest d := rfl

theorem collected_folder_fails (s : FileStat) (children rest : Remote) (d : String) :
    collected (Remote.folder s true children rest) d = collected rest d := by
  simp [collected, Remote.reachable]

theorem collected_folder_lists (s : FileStat) (children rest : Remote) (d : String) :
    collected (Remote.folder s false children rest) d
      = collected children (filepath.Join [d, s.Name]) ++ collected rest d := by
  simp [collected, Remote.reachable, List.map_map, Function.comp_def, destination_cons]

theorem recursive_succ (p : PikPak) (fuel : Nat) (acc : List warpStat) (parentId parentPath : String) :
    recursive p (fuel + 1) acc parentId parentPath =
      match p.GetFolderFileStatList parentId with
      | (_, some _) => some acc
      | (statList, none) =>
        statList.foldlM (fun acc r =>
          if r.Kind = "drive#folder" then
            recursive p fuel acc r.ID (filepath.Join [parentPath, r.Name])
          else
            some (acc ++ [{ s := r, output := parentPath }])) acc := rfl

/-- The loop of `recursive` over the entries of a served folder appends the
items specified for that folder to the accumulator. -/
theorem recursive_loop (p : PikPak) (t : Remote) :
    ∀ (fuel : Nat) (acc : List warpStat) (d : String), t.Serves p → t.depth ≤ fuel →
      t.entries.foldlM (fun acc r =>
          if r.Kind = "drive#folder" then
            recursive p fuel acc r.ID (filepath.Join [d, r.Name])
          else
            some (acc ++ [{ s := r, output := d }])) acc = some (acc ++ collected t d) := by
  induction t with
  | nil => intro fuel acc d _ _; simp [Remote.entries, collected, Remote.reachable]
  | file s rest ih =>
    intro fuel acc d hs hd
    obtain ⟨hk, hrest⟩ := hs
    simp only [Remote.entries, List.foldlM_cons, if_neg hk, Option.some_bind, Option.bind_eq_bind]
    rw [ih fuel _ d hrest hd, collected_file]
    simp
  | folder s fails children rest ihc ihr =>
    intro fuel acc d hs hd
    obtain ⟨hk, hlist, hrest⟩ := hs
    simp only [Remote.depth] at hd
    have hdr : rest.depth ≤ fuel := le_trans (le_max_right _ _) hd
    have hdc : (if fails = true then 1 else children.depth + 1) ≤ fuel :=
      le_trans (le_max_left _ _) hd
    simp only [Remote.entries, List.foldlM_cons, if_pos hk, Option.bind_eq_bind]
    cases fails with
    | true =>
      simp only [if_true] at hlist hdc
      obtain ⟨f, rfl⟩ : ∃ f, fuel = f + 1 := ⟨fuel - 1, by omega⟩
      have hrec : recursive p (f + 1) acc s.ID (filepath.Join [d, s.Name]) = some acc := by
        rw [recursive_succ]
        rcases hg : p.GetFolderFileStatList s.ID with ⟨l, e⟩
        cases e with
        | none => rw [hg] at hlist; exact absurd rfl hlist
        | some e => rfl
      rw [hrec, Option.some_bind, ihr (f + 1) acc d hrest hdr, collected_folder_fails]
    | false =>
      simp only [Bool.false_eq_true, if_false] at hlist hdc
      obtain ⟨hl, hch⟩ := hlist
      obtain ⟨f, rfl⟩ : ∃ f, fuel = f + 1 := ⟨fuel - 1, by omega⟩
      have hrec : recursive p (f + 1) acc s.ID (filepath.Join [d, s.Name])
          = some (acc ++ collected children (filepath.Join [d, s.Name])) := by
        rw [recursive_succ, hl]
        exact ihc f acc _ hch (by omega)
      rw [hrec, Option.some_bind, ihr (f + 1) _ d hrest hdr, collected_folder_lists]
      simp

theorem reachable_allFiles (t : Remote) (h : t.allSucceed = true) :
    t.reachable.map Prod.snd = t.allFiles := by
  induction t with
  | nil => rfl
  | file s rest ih =>
    simp only [Remote.allSucceed] at h
    simp [Remote.reachable, Remote.allFiles, ih h]
  | folder s fails children rest ihc ihr =>
    simp only [Remote.allSucceed, Bool.and_eq_true, Bool.not_eq_true'] at h
    obtain ⟨⟨hf, hc⟩, hr⟩ := h
    subst hf
    simp [Remote.reachable, Remote.allFiles, ihc hc, ihr hr, List.map_map, Function.comp_def]

theorem reachable_kind (p : PikPak) (t : Remote) (h : t.Serves p) :
    ∀ x ∈ t.reachable, x.2.Kind ≠ "drive#folder" := by
  induction t with
  | nil => simp [Remote.reachable]
  | file s rest ih =>
    intro x hx
    simp only [Remote.reachable, List.mem_cons] at hx
    rcases hx with rfl | hx
    · exact h.1
    · exact ih h.2 x hx
  | folder s fails children rest ihc ihr =>
    intro x hx
    obtain ⟨_, hlist, hrest⟩ := h
    simp only [Remote.reachable, List.mem_append] at hx
    rcases hx with hx | hx
    · cases fails with
      | true => simp at hx
      | false =>
        simp only [Bool.false_eq_true, if_false, List.mem_map] at hx hlist
        obtain ⟨y, hy, rfl⟩ := hx
        exact ihc hlist.2 y hy
    · exact ihr hrest x hx

/-! ## Theorems: the download worker -/

theorem length_flag_suffix : ".pikpakclidownload".length = 18 := by decide

theorem finalPath_ne_flagPath (warp : warpFile) : finalPath warp ≠ flagPath warp := by
  intro h
  have hl := congrArg String.length h
  simp only [flagPath, String.length_append, length_flag_suffix] at hl
  omega

theorem ne_append_flag (path : String) : path ≠ path ++ ".pikpakclidownload" := by
  intro h
  have hl := congrArg String.length h
  simp only [String.length_append, length_flag_suffix] at hl
  omega

theorem append_flag_ne (path : String) : path ++ ".pikpakclidownload" ≠ path :=
  fun h => ne_append_flag path h.symm

/-- The iteration written out on the answers of the two existence checks. -/
theorem downloadItem_checked (o : Outcome) (warp : warpFile) (fs : FS)
    (h1 : o.existErr = false) (h2 : o.flagErr = false) :
    downloadItem o warp fs =
      if fs (finalPath warp) && !fs (flagPath warp) then (fs, skipTrace)
      else if o.touchErr then
        (fs, [.touch (flagPath warp), .log .Error "Create flag file", .signal])
      else if o.downloadErr then
        (fun q => if q = finalPath warp then
                    (o.leavesFile || (if q = flagPath warp then true else fs q))
                  else if q = flagPath warp then true else fs q,
         [.touch (flagPath warp), .transfer warp.f (finalPath warp),
          .log .Error "Download", .signal])
      else if o.removeErr then
        (fun q => if q = finalPath warp then true
                  else if q = flagPath warp then true else fs q,
         [.touch (flagPath warp), .transfer warp.f (finalPath warp), .log .Info "Download",
          .remove (flagPath warp), .log .Warn "Remove flag file", .signal])
      else
        (fun q => if q = flagPath warp then false
                  else if q = finalPath warp then true
                  else if q = flagPath warp then true else fs q,
         [.touch (flagPath warp), .transfer warp.f (finalPath warp), .log .Info "Download",
          .remove (flagPath warp), .signal]) := by
  rcases o with ⟨a, b, c, d, e, f⟩
  simp only at h1 h2
  subst h1 h2
  have hne := append_flag_ne (filepath.Join [warp.output, warp.f.Name])
  cases c <;> cases d <;> cases f <;>
    simp [downloadItem, utils.Exists, utils.TouchFile, File.Download, os.Remove, skipTrace,
      finalPath, flagPath, hne]

theorem downloadItem_signals (o : Outcome) (warp : warpFile) (fs : FS) :
    signals (downloadItem o warp fs).2 = 1 := by
  rcases o with ⟨a, b, c, d, e, f⟩
  cases a
  · cases b
    · rw [downloadItem_checked _ _ _ rfl rfl]
      simp only
      split_ifs <;> rfl
    · simp [downloadItem, utils.Exists, signals, Event.isSignal]
  · simp [downloadItem, utils.Exists, signals, Event.isSignal]

theorem signals_append (xs ys : List Event) : signals (xs ++ ys) = signals xs + signals ys := by
  simp [signals]

theorem download_signals (items : List (warpFile × Outcome)) :
    ∀ fs : FS, signals (download items fs).2 = items.length := by
  induction items with
  | nil => intro fs; rfl
  | cons x rest ih =>
    intro fs
    obtain ⟨warp, o⟩ := x
    simp only [download, signals_append, downloadItem_signals, ih, List.length_cons]
    omega

/-- C4: for every sequence of items fed to a `download` worker, every
filesystem and every outcome of the local calls of each item, the worker
emits exactly one completion signal per consumed item. -/
theorem download_one_signal_per_item (items : List (warpFile × Outcome)) (fs : FS) :
    signals (download items fs).2 = items.length :=
  download_signals items fs

/-- C2: when both existence checks succeed, the item takes the skip branch
(equivalently: no marker is created and no transfer attempted) if and only if
the final path exists and the marker does not; otherwise the first event is
the creation of the marker at `finalPath ++ ".pikpakclidownload"`, followed by
the transfer to the final path when the creation succeeded and by no transfer
when it failed.  In particular an item whose final path and marker both exist
is never skipped and is transferred again once its marker is created. -/
theorem download_skip_iff (o : Outcome) (warp : warpFile) (fs : FS)
    (h1 : o.existErr = false) (h2 : o.flagErr = false) :
    flagPath warp = filepath.Join [warp.output, warp.f.Name] ++ ".pikpakclidownload" ∧
    ((downloadItem o warp fs).2 = skipTrace ↔
      (fs (finalPath warp) = true ∧ fs (flagPath warp) = false)) ∧
    ((∀ e ∈ (downloadItem o warp fs).2, e.isTouch = false ∧ e.isTransfer = false) ↔
      (fs (finalPath warp) = true ∧ fs (flagPath warp) = false)) ∧
    (¬ (fs (finalPath warp) = true ∧ fs (flagPath warp) = false) →
      (downloadItem o warp fs).2.head? = some (.touch (flagPath warp)) ∧
      (o.touchErr = false →
        (downloadItem o warp fs).2[1]? = some (.transfer warp.f (finalPath warp))) ∧
      (o.touchErr = true → ∀ e ∈ (downloadItem o warp fs).2, e.isTransfer = false)) ∧
    (fs (finalPath warp) = true → fs (flagPath warp) = true →
      (downloadItem o warp fs).2 ≠ skipTrace ∧
      (downloadItem o warp fs).2.head? = some (.touch (flagPath warp)) ∧
      (o.touchErr = false →
        Event.transfer warp.f (finalPath warp) ∈ (downloadItem o warp fs).2)) := by
  rw [downloadItem_checked o warp fs h1 h2]
  rcases o with ⟨a, b, c, d, e, f⟩
  refine ⟨rfl, ?_⟩
  cases hp : fs (finalPath warp) <;> cases hf : fs (flagPath warp) <;>
    cases c <;> cases d <;> cases f <;>
    simp [skipTrace, Event.isTouch, Event.isTransfer]

theorem download_skip_iff_witness :
    (Outcome.allOk.existErr = false ∧ Outcome.allOk.flagErr = false) ∧
    ((downloadItem Outcome.allOk { f := { ID := "id1", Name := "x", Size := 1 }, output := "out" }
        (fun q => q = "out/x" || q = "out/x.pikpakclidownload")).2.head?
      = some (.touch "out/x.pikpakclidownload")) :=
  ⟨⟨rfl, rfl⟩,
   ((download_skip_iff Outcome.allOk { f := { ID := "id1", Name := "x", Size := 1 }, output := "out" }
      (fun q => q = "out/x" || q = "out/x.pikpakclidownload") rfl rfl).2.2.2.2
      (by decide) (by decide)).2.1.trans (by decide)⟩

/-- C6: for an item that is not skipped and whose existence checks succeed,
the creation of the marker is the first event and any transfer is the event
right after it, made only when the creation succeeded; a failed creation
leaves the filesystem as it was and starts no transfer; after a failed
transfer the marker exists; after a successful transfer and a successful
removal the marker does not exist and the final path does. -/
theorem download_marker_protocol (o : Outcome) (warp : warpFile) (fs : FS)
    (h1 : o.existErr = false) (h2 : o.flagErr = false)
    (hns : ¬ (fs (finalPath warp) = true ∧ fs (flagPath warp) = false)) :
    (downloadItem o warp fs).2.head? = some (.touch (flagPath warp)) ∧
    (∀ e ∈ (downloadItem o warp fs).2, e.isTransfer = true →
      o.touchErr = false ∧ e = .transfer warp.f (finalPath warp) ∧
      (downloadItem o warp fs).2[1]? = some e) ∧
    (o.touchErr = true →
      (downloadItem o warp fs).1 = fs ∧
      ∀ e ∈ (downloadItem o warp fs).2, e.isTransfer = false) ∧
    (o.touchErr = false → o.downloadErr = true →
      (downloadItem o warp fs).1 (flagPath warp) = true) ∧
    (o.touchErr = false → o.downloadErr = false → o.removeErr = false →
      (downloadItem o warp fs).1 (flagPath warp) = false ∧
      (downloadItem o warp fs).1 (finalPath warp) = true) := by
  rw [downloadItem_checked o warp fs h1 h2]
  rcases o with ⟨a, b, c, d, e, f⟩
  have hne := finalPath_ne_flagPath warp
  have hne2 : flagPath warp ≠ finalPath warp := fun h => hne h.symm
  cases hp : fs (finalPath warp) <;> cases hf : fs (flagPath warp) <;>
    simp only [hp, hf, not_true_eq_false, and_self, and_true, and_false, not_false_eq_true,
      reduceCtorEq] at hns <;>
    cases c <;> cases d <;> cases f <;>
    simp [Event.isTransfer, hne, hne2]

theorem download_marker_protocol_witness :
    (Outcome.allOk.existErr = false ∧ Outcome.allOk.flagErr = false) ∧
    ((downloadItem Outcome.allOk { f := { ID := "id1", Name := "x", Size := 1 }, output := "out" }
        emptyFS).1 "out/x.pikpakclidownload" = false ∧
     (downloadItem Outcome.allOk { f := { ID := "id1", Name := "x", Size := 1 }, output := "out" }
        emptyFS).1 "out/x" = true) :=
  ⟨⟨rfl, rfl⟩,
   (download_marker_protocol Outcome.allOk
      { f := { ID := "id1", Name := "x", Size := 1 }, output := "out" } emptyFS rfl rfl
      (by decide)).2.2.2.2 rfl rfl rfl⟩

/-! ## Theorems: idempotence of the download protocol -/

theorem downloadItem_allOk (warp : warpFile) (fs : FS) :
    (downloadItem Outcome.allOk warp fs).1 (finalPath warp) = true ∧
    (downloadItem Outcome.allOk warp fs).1 (flagPath warp) = false ∧
    ∀ q, q ≠ finalPath warp → q ≠ flagPath warp →
      (downloadItem Outcome.allOk warp fs).1 q = fs q := by
  rw [downloadItem_checked Outcome.allOk warp fs rfl rfl]
  have hne := finalPath_ne_flagPath warp
  cases hp : fs (finalPath warp) <;> cases hf : fs (flagPath warp) <;>
    simp +contextual [Outcome.allOk, hne, hp, hf]

theorem cleanRun_complete (items : List warpFile)
    (hdisj : ∀ v ∈ items, ∀ w ∈ items, finalPath v ≠ flagPath w) :
    ∀ (l : List warpFile) (fs : FS), (∀ w ∈ l, w ∈ items) →
      ∀ v ∈ items, (Complete fs v ∨ v ∈ l) → Complete (download (cleanRun l) fs).1 v := by
  intro l
  induction l with
  | nil =>
    intro fs _ v _ hv
    rcases hv with hv | hv
    · exact hv
    · simp at hv
  | cons w rest ih =>
    intro fs hl v hvi hv
    have hwi : w ∈ items := hl w (List.mem_cons_self _ _)
    obtain ⟨hpath, hflag, hother⟩ := downloadItem_allOk w fs
    have hstep : download (cleanRun (w :: rest)) fs
        = ((download (cleanRun rest) (downloadItem Outcome.allOk w fs).1).1,
           (downloadItem Outcome.allOk w fs).2 ++
             (download (cleanRun rest) (downloadItem Outcome.allOk w fs).1).2) := rfl
    rw [hstep]
    refine ih _ (fun x hx => hl x (List.mem_cons_of_mem _ hx)) v hvi ?_
    by_cases hvr : v ∈ rest
    · exact Or.inr hvr
    · left
      have hv2 : Complete fs v ∨ v = w := by
        rcases hv with hv | hv
        · exact Or.inl hv
        · rcases List.mem_cons.mp hv with h | h
          · exact Or.inr h
          · exact absurd h hvr
      rcases hv2 with hc | rfl
      · constructor
        · by_cases hpe : finalPath v = finalPath w
          · rw [hpe]; exact hpath
          · rw [hother _ hpe (hdisj v hvi w hwi)]; exact hc.1
        · by_cases hfe : flagPath v = flagPath w
          · rw [hfe]; exact hflag
          · rw [hother _ (fun h => hdisj w hwi v hvi h.symm) hfe]; exact hc.2
      · exact ⟨hpath, hflag⟩

theorem download_all_skipped (second : List (warpFile × Outcome)) :
    ∀ fs : FS,
      (∀ x ∈ second, Complete fs x.1 ∧ x.2.existErr = false ∧ x.2.flagErr = false) →
      download second fs = (fs, allSkipped (second.map Prod.fst)) := by
  induction second with
  | nil => intro fs _; rfl
  | cons x rest ih =>
    intro fs h
    obtain ⟨warp, o⟩ := x
    obtain ⟨hc, h1, h2⟩ := h (warp, o) (List.mem_cons_self _ _)
    have hitem : downloadItem o warp fs = (fs, skipTrace) := by
      rw [downloadItem_checked o warp fs h1 h2]
      simp [hc.1, hc.2]
    simp only [download, hitem, List.map_cons, allSkipped]
    rw [ih fs (fun y hy => h y (List.mem_cons_of_mem _ hy))]

theorem allSkipped_quiet (items : List warpFile) :
    ∀ e ∈ allSkipped items, e.isTransfer = false ∧ e.isTouch = false := by
  induction items with
  | nil => simp [allSkipped]
  | cons w rest ih =>
    intro e he
    simp only [allSkipped, skipTrace, List.cons_append, List.nil_append, List.mem_cons] at he
    rcases he with rfl | rfl | he
    · exact ⟨rfl, rfl⟩
    · exact ⟨rfl, rfl⟩
    · exact ih e he

theorem downloadItem_complete (o : Outcome) (warp : warpFile) (fs : FS)
    (hc : Complete fs warp) :
    (downloadItem o warp fs).1 = fs ∧
    ∀ e ∈ (downloadItem o warp fs).2, e.isTransfer = false ∧ e.isTouch = false := by
  rcases o with ⟨a, b, c, d, e, f⟩
  cases a
  · cases b
    · rw [downloadItem_checked _ warp fs rfl rfl]
      simp [hc.1, hc.2, skipTrace, Event.isTransfer, Event.isTouch]
    · simp [downloadItem, utils.Exists, Event.isTransfer, Event.isTouch]
  · simp [downloadItem, utils.Exists, Event.isTransfer, Event.isTouch]

theorem download_quiet (second : List (warpFile × Outcome)) :
    ∀ fs : FS, (∀ x ∈ second, Complete fs x.1) →
      (download second fs).1 = fs ∧
      ∀ e ∈ (download second fs).2, e.isTransfer = false ∧ e.isTouch = false := by
  induction second with
  | nil => intro fs _; simp [download]
  | cons x rest ih =>
    intro fs h
    obtain ⟨warp, o⟩ := x
    obtain ⟨hfs, hq⟩ := downloadItem_complete o warp fs (h (warp, o) (List.mem_cons_self _ _))
    have hrest := ih fs (fun y hy => h y (List.mem_cons_of_mem _ hy))
    simp only [download, hfs]
    refine ⟨hrest.1, ?_⟩
    intro e he
    rcases List.mem_append.mp he with he | he
    · exact hq e he
    · exact hrest.2 e he

/-- C8 (amended): for every list of resolved items in which no item's final
path is the marker path of an item of the list, and every filesystem, after a
first run of the worker over the list in which every local call succeeds, a
second run over the same list leaves the filesystem unchanged, makes no
transfer and creates no marker, and every item takes the skip branch when the
existence checks of the second run succeed. -/
theorem download_idempotent (items : List warpFile) (fs : FS)
    (second : List (warpFile × Outcome))
    (hdisj : ∀ v ∈ items, ∀ w ∈ items, finalPath v ≠ flagPath w)
    (hsame : second.map Prod.fst = items) :
    (download second (download (cleanRun items) fs).1).1 = (download (cleanRun items) fs).1 ∧
    (∀ e ∈ (download second (download (cleanRun items) fs).1).2,
      e.isTransfer = false ∧ e.isTouch = false) ∧
    ((∀ x ∈ second, x.2.existErr = false ∧ x.2.flagErr = false) →
      (download second (download (cleanRun items) fs).1).2 = allSkipped items) := by
  have hgood : ∀ v ∈ items, Complete (download (cleanRun items) fs).1 v :=
    fun v hv => cleanRun_complete items hdisj items fs (fun _ h => h) v hv (Or.inr hv)
  have hmem : ∀ x ∈ second, x.1 ∈ items := by
    intro x hx
    rw [← hsame]
    exact List.mem_map_of_mem Prod.fst hx
  have hq := download_quiet second (download (cleanRun items) fs).1
    (fun x hx => hgood x.1 (hmem x hx))
  refine ⟨hq.1, hq.2, ?_⟩
  intro hchk
  have hrun := download_all_skipped second (download (cleanRun items) fs).1
    (fun x hx => ⟨hgood x.1 (hmem x hx), hchk x hx⟩)
  rw [hsame] at hrun
  rw [hrun]

theorem download_idempotent_witness :
    (∀ v ∈ scenarioItems, ∀ w ∈ scenarioItems, finalPath v ≠ flagPath w) ∧
    (download (cleanRun scenarioItems)
        (download (cleanRun scenarioItems) emptyFS).1).2
      = allSkipped scenarioItems :=
  ⟨by decide,
   (download_idempotent scenarioItems emptyFS (cleanRun scenarioItems)
       (by decide) (by decide)).2.2 (by decide)⟩

/-- C8 as stated fails: a folder holding `x` and `x.pikpakclidownload`.  After
a first run in which every call succeeds, the second run does not skip `x`:
it creates the marker `out/x.pikpakclidownload` and transfers `x` again. -/
theorem download_idempotent_counterexample :
    (download (cleanRun collidingItems) (download (cleanRun collidingItems) emptyFS).1).2
      ≠ allSkipped collidingItems ∧
    Event.transfer { ID := "id1", Name := "x", Size := 1 } "out/x"
      ∈ (download (cleanRun collidingItems) (download (cleanRun collidingItems) emptyFS).1).2 := by
  decide

/-! ## Theorems: the claims on the tree collector -/

/-- C1: for every finite remote tree served with every listing succeeding and
every local root `d`, `recursive` started on the root id with an empty
accumulator returns, given fuel above the depth of the tree, the list with one
entry per file transitively contained in the tree and none for a folder, in
depth-first pre-order, each with destination `d` path-joined with the names of
the folders above the file (the file name is not joined on). -/
theorem recursive_collects_tree (p : PikPak) (t : Remote) (rootId d : String) (fuel : Nat)
    (hroot : p.GetFolderFileStatList rootId = (t.entries, none))
    (hserve : t.Serves p) (hall : t.allSucceed = true) (hfuel : t.depth < fuel) :
    recursive p fuel [] rootId d
      = some (t.reachable.map (fun x => { s := x.2, output := destination d x.1 })) ∧
    (t.reachable.map (fun x => ({ s := x.2, output := destination d x.1 } : warpStat))).map
      warpStat.s = t.allFiles ∧
    (t.reachable.map (fun x => ({ s := x.2, output := destination d x.1 } : warpStat))).length
      = t.allFiles.length ∧
    ∀ x ∈ t.reachable, x.2.Kind ≠ "drive#folder" := by
  obtain ⟨f, rfl⟩ : ∃ f, fuel = f + 1 := ⟨fuel - 1, by omega⟩
  have hrun : recursive p (f + 1) [] rootId d = some ([] ++ collected t d) := by
    rw [recursive_succ, hroot]
    exact recursive_loop p t f [] d hserve (by omega)
  have hfiles := reachable_allFiles t hall
  refine ⟨by simpa [collected] using hrun, ?_, ?_, reachable_kind p t hserve⟩
  · rw [List.map_map, ← hfiles]
    rfl
  · rw [← hfiles]
    simp

theorem recursive_collects_tree_witness :
    (scenarioService.GetFolderFileStatList "id-root" = (scenarioTree.entries, none) ∧
      scenarioTree.allSucceed = true ∧ scenarioTree.depth < 2) ∧
    recursive scenarioService 2 [] "id-root" "out"
      = some [{ s := file1, output := "out/a" }, { s := file2, output := "out" }] :=
  ⟨by decide,
   (recursive_collects_tree scenarioService scenarioTree "id-root" "out" 2 (by decide)
      (by simp only [scenarioTree, Remote.Serves]; decide) (by decide) (by decide)).1.trans
     (by decide)⟩

/-- C7: for every served remote tree, whichever of its folders fail to list,
`recursive` returns normally given fuel above the depth of the tree: when the
listing of the start folder fails the accumulator is returned unchanged, and
otherwise the result is the accumulator followed by every file reachable
through folders whose listing succeeds, a failing folder contributing nothing
for its subtree while the entries listed after it are still collected. -/
theorem recursive_isolates_failures (p : PikPak) (t : Remote) (rootId d : String) (fuel : Nat)
    (acc : List warpStat) (hserve : t.Serves p) (hfuel : t.depth < fuel) :
    ((p.GetFolderFileStatList rootId).2 ≠ none → recursive p fuel acc rootId d = some acc) ∧
    (p.GetFolderFileStatList rootId = (t.entries, none) →
      recursive p fuel acc rootId d
        = some (acc ++ t.reachable.map (fun x => { s := x.2, output := destination d x.1 }))) ∧
    (∀ (s : FileStat) (children rest : Remote),
      (Remote.folder s true children rest).reachable = rest.reachable) := by
  obtain ⟨f, rfl⟩ : ∃ f, fuel = f + 1 := ⟨fuel - 1, by omega⟩
  refine ⟨?_, ?_, ?_⟩
  · intro herr
    rw [recursive_succ]
    rcases hg : p.GetFolderFileStatList rootId with ⟨l, e⟩
    cases e with
    | none => rw [hg] at herr; exact absurd rfl herr
    | some e => rfl
  · intro hroot
    rw [recursive_succ, hroot]
    exact recursive_loop p t f acc d hserve (by omega)
  · intro s children rest
    simp [Remote.reachable]

theorem recursive_isolates_failures_witness :
    brokenTree.depth < 2 ∧
    recursive scenarioService 2 [] "id-root2" "out"
      = some [{ s := file1, output := "out/a" }, { s := file2, output := "out" }] :=
  ⟨by decide,
   ((recursive_isolates_failures scenarioService brokenTree "id-root2" "out" 2 []
      (by simp only [brokenTree, scenarioTree, Remote.Serves]; decide) (by decide)).2.1
      (by decide)).trans (by decide)⟩

/-! ## Theorems: the orchestrators -/

theorem resolver_emitted (p : PikPak) (stats : List warpStat) :
    emitted (resolver p stats)
      = stats.map (fun st => { f := (p.GetFile st.s.ID).1, output := st.output }) := by
  induction stats with
  | nil => rfl
  | cons st rest ih =>
    rcases hg : p.GetFile st.s.ID with ⟨file, e⟩
    cases e <;> simp [resolver, hg, emitted, ih]

theorem resolver_signals (p : PikPak) (stats : List warpStat) :
    signals (resolver p stats) = stats.length := by
  induction stats with
  | nil => rfl
  | cons st rest ih =>
    rcases hg : p.GetFile st.s.ID with ⟨file, e⟩
    cases e
    · have h : resolver p (st :: rest)
          = [.emit { f := file, output := st.output }, .signal] ++ resolver p rest := by
        simp [resolver, hg]
      rw [h, signals_append, ih, List.length_cons, Nat.add_comm]
      rfl
    · have h : resolver p (st :: rest)
          = [.log .Error "Get File Failed:", .emit { f := file, output := st.output }, .signal]
              ++ resolver p rest := by
        simp [resolver, hg]
      rw [h, signals_append, ih, List.length_cons, Nat.add_comm]
      rfl

/-- C5, the code at a failing handle resolution: the resolver goroutine sends
on the channel to the download workers one value per stat it receives, whether
`GetFile` succeeded or not, and one completion signal per stat; for `file3`,
whose `GetFile` call fails, it logs the error and then sends the value `GetFile`
returned with the error. -/
theorem resolver_emits_after_failure :
    (∀ (p : PikPak) (stats : List warpStat),
      emitted (resolver p stats)
        = stats.map (fun st => { f := (p.GetFile st.s.ID).1, output := st.output }) ∧
      signals (resolver p stats) = stats.length) ∧
    (scenarioService.GetFile file3.ID).2 ≠ none ∧
    resolver scenarioService [{ s := file3, output := "out" }]
      = [.log .Error "Get File Failed:",
         .emit { f := { ID := "", Name := "", Size := 0 }, output := "out" },
         .signal] :=
  ⟨fun p stats => ⟨resolver_emitted p stats, resolver_signals p stats⟩, by decide, by decide⟩

/-- C3, the code at the scenario of the specification: with the paths
`a/file1` and `missing/file9`, of which the second does not resolve, one item
is sent to the workers and one completion signal is delivered, while
`downloadFile` waits for two: the call never returns. -/
theorem downloadFile_unresolved_path_blocks :
    emitted (downloadFile scenarioService scenarioFlags scenarioEnv
        ["a/file1", "missing/file9"]).2.1
      = [{ f := { ID := "id-file1", Name := "file1", Size := 10 }, output := "out" }] ∧
    signals (downloadFile scenarioService scenarioFlags scenarioEnv
        ["a/file1", "missing/file9"]).2.2 = 1 ∧
    (downloadFile scenarioService scenarioFlags scenarioEnv ["a/file1", "missing/file9"]).1
      = Ret.blocked := by
  decide

/-- C9, the code at a per-item failure of explicit-file-list mode: login and
setup succeed, the only requested path does not resolve, and `downloadFile`
does not return nil: it blocks waiting for a completion signal, and so does
the command. -/
theorem run_blocks_on_unresolved_path :
    scenarioService.Login = none ∧
    (downloadFile scenarioService scenarioFlags scenarioEnv ["missing/file9"]).1 = Ret.blocked ∧
    Run scenarioService scenarioFlags scenarioEnv 2 ["missing/file9"] = some Status.blocked := by
  decide

/-- C10, the code at the default flag values: the destination root handed to
the collector is the filesystem root `/`, not `.`, and the files of the
scenario tree are collected with the absolute destinations `/a` and `/`;
explicit-file-list mode with the same default output writes to a path
relative to the current directory. -/
theorem default_destination_is_root :
    filepath.Base initFlags.folder = "/" ∧
    filepath.Join [initFlags.output, filepath.Base initFlags.folder] = "/" ∧
    recursive scenarioService 2 [] "id-root"
        (filepath.Join [initFlags.output, filepath.Base initFlags.folder])
      = some [{ s := file1, output := "/a" }, { s := file2, output := "/" }] ∧
    finalPath { f := { ID := "id-file1", Name := "file1", Size := 10 },
                output := initFlags.output } = "file1" := by
  decide

/-! ## Theorems: return values of the orchestrators -/

theorem withOutcomes_length (outcome : Nat → Outcome) (ws : List warpFile) :
    ∀ n, (withOutcomes outcome n ws).length = ws.length := by
  induction ws with
  | nil => intro n; rfl
  | cons w rest ih => intro n; simp [withOutcomes, ih]

theorem downloadPool_signals (count : Int) (hc : 0 < count) (items : List (warpFile × Outcome))
    (fs : FS) : signals (downloadPool count items fs).2 = items.length := by
  have h : ¬ count ≤ 0 := by omega
  simp only [downloadPool, if_neg h]
  exact download_signals items fs

theorem createDirs_sent (mkdirErr : String → Bool) (stats : List warpStat) :
    ∀ fs : FS, (createDirs mkdirErr stats fs).2.2 = none →
      (createDirs mkdirErr stats fs).2.1 = stats := by
  induction stats with
  | nil => intro fs _; rfl
  | cons st rest ih =>
    intro fs h
    cases hm : mkdirErr st.output
    · simp only [createDirs, utils.CreateDirIfNotExist, hm, Bool.false_eq_true, if_false] at h ⊢
      rw [ih _ h]
    · simp [createDirs, utils.CreateDirIfNotExist, hm] at h

/-- The command exits with code 1 exactly when login fails. -/
theorem Run_exit_one_iff (p : PikPak) (g : Flags) (env : Env) (fuel : Nat) (args : List String) :
    Run p g env fuel args = some (Status.exit 1) ↔ p.Login ≠ none := by
  unfold Run
  cases hl : p.Login with
  | some e => simp
  | none =>
    simp only [ne_eq, not_true_eq_false, iff_false]
    split_ifs
    · split <;> simp
    · split <;> simp

/-- Whole-folder mode returns nil whatever fails per item, once the root is
resolved, the tree is collected, every output directory is created and there
is at least one download worker. -/
theorem downloadFolder_returns_nil (p : PikPak) (g : Flags) (env : Env) (fuel : Nat)
    (parentId : String) (collectStat : List warpStat) (hc : 0 < g.count)
    (hid : (if g.parentId = "" then p.GetPathFolderId g.folder else (g.parentId, none))
      = (parentId, none))
    (hrec : recursive p fuel [] parentId (filepath.Join [g.output, filepath.Base g.folder])
      = some collectStat)
    (hdirs : (createDirs env.mkdirErr collectStat env.fs).2.2 = none) :
    ∃ resolvers workers, downloadFolder p g env fuel = some (Ret.returned none, resolvers, workers) := by
  have hsent := createDirs_sent env.mkdirErr collectStat env.fs hdirs
  rcases hcd : createDirs env.mkdirErr collectStat env.fs with ⟨fs1, statCh, e⟩
  rw [hcd] at hdirs hsent
  simp only at hdirs hsent
  subst hdirs hsent
  simp only [downloadFolder, hid, hrec, hcd]
  have h1 : ¬ signals (resolver p statCh) < statCh.length := by
    rw [resolver_signals]; omega
  have h2 : ¬ signals (downloadPool g.count
      (withOutcomes env.outcome 0 (emitted (resolver p statCh))) fs1).2 < statCh.length := by
    rw [downloadPool_signals g.count hc, withOutcomes_length, resolver_emitted, List.length_map]
    omega
  rw [if_neg h1, if_neg h2]
  exact ⟨_, _, rfl⟩

end Pikpak
